import Mathlib

/-!
Shallow embedding of the demux-js core: `AbstractActionReader` (dist/AbstractActionReader.js)
and `AbstractActionHandler` (src/AbstractActionHandler.ts).

JS numbers are modelled as `Int` (block numbers can be negative before the first
fetch when tailing the chain), JS strings as `String`, nullable values as `Option`,
thrown errors as an error component that still carries the mutated state (JS
exceptions leave object mutations in place).  The abstract methods
(`getHeadBlockNumber`, `getBlock`, `loadIndexState`, `updateIndexState`,
`rollbackTo`, `handleWithState`, `Updater.apply`, `Effect.run`) are modelled as an
environment record plus an explicit call trace, so that theorems can speak about
which abstract operations a method invoked and in which order.
-/

namespace Demux

/-- Mirrors the `blockInfo` record of a `Block` (interfaces.ts). -/
structure BlockInfo where
  blockNumber : Int
  blockHash : String
  previousBlockHash : String
deriving DecidableEq, Repr

/-- Mirrors `Action { type, payload }`; the opaque payload is modelled as a string. -/
structure Action where
  type : String
  payload : String
deriving DecidableEq, Repr

/-- Mirrors `Block { blockInfo, actions }`. -/
structure Block where
  blockInfo : BlockInfo
  actions : List Action
deriving DecidableEq, Repr

/-! ## Reader (dist/AbstractActionReader.js) -/

/-- Calls the reader makes to its abstract chain source. -/
inductive RCall where
  | getHead
  | getBlock (blockNumber : Int)
deriving DecidableEq, Repr

/-- Errors thrown by reader methods. -/
inductive RErr where
  | nullCurrentBlockData
  | historyExhausted
  | seekBeforeStart
  | undefinedTmpBlock
deriving DecidableEq, Repr

/-- The reader's abstract chain source.  `getHeadBlockNumber` is indexed by the
call count inside a single `nextBlock` call (it can be invoked a second time
after fork resolution). -/
structure ReaderEnv where
  getHeadBlockNumber : Nat → Int
  getBlock : Int → Block

/-- The mutable fields of `AbstractActionReader`. -/
structure ReaderState where
  startAtBlock : Int
  onlyIrreversible : Bool
  maxHistoryLength : Nat
  headBlockNumber : Int
  currentBlockNumber : Int
  isFirstBlock : Bool
  currentBlockData : Option Block
  blockHistory : List Block
  tmpBlocks : List Block
  index : Nat
deriving Repr

/-- The constructor of `AbstractActionReader`. -/
def mkReader (startAtBlock : Int) (onlyIrreversible : Bool) (maxHistoryLength : Nat) :
    ReaderState :=
  { startAtBlock := startAtBlock
    onlyIrreversible := onlyIrreversible
    maxHistoryLength := maxHistoryLength
    headBlockNumber := 0
    isFirstBlock := true
    currentBlockData := none
    blockHistory := []
    tmpBlocks := []
    index := 0
    currentBlockNumber := startAtBlock - 1 }

/-- The `while` loop of `resolveFork`, walking the reversed history (newest
first).  Each iteration refetches the current block; on a hash match it breaks
(keeping the matched history entry), otherwise it pops the entry and retries. -/
def resolveForkAux (env : ReaderEnv) (cur : Block) :
    List Block → Block × List Block × List RCall
  | [] => (cur, [], [])
  | prev :: rest =>
    let refetched := env.getBlock cur.blockInfo.blockNumber
    if refetched.blockInfo.previousBlockHash = prev.blockInfo.blockHash then
      (refetched, prev :: rest, [RCall.getBlock cur.blockInfo.blockNumber])
    else
      let r := resolveForkAux env prev rest
      (r.1, r.2.1, RCall.getBlock cur.blockInfo.blockNumber :: r.2.2)

/-- `resolveFork` of `AbstractActionReader`. -/
def resolveFork (env : ReaderEnv) (s : ReaderState) :
    ReaderState × List RCall × Except RErr Unit :=
  match s.currentBlockData with
  | none => (s, [], .error .nullCurrentBlockData)
  | some cur =>
    let r := resolveForkAux env cur s.blockHistory.reverse
    let s2 := { s with currentBlockData := some r.1, blockHistory := r.2.1.reverse }
    match r.2.1 with
    | [] => (s2, r.2.2, .error .historyExhausted)
    | p :: _ =>
      ({ s2 with currentBlockNumber := p.blockInfo.blockNumber + 1 }, r.2.2, .ok ())

/-- The head-refresh step of `nextBlock`: if on the head block (or head is the
falsy 0), refetch the head and clear the prefetch buffer. -/
def headRefreshPhase (env : ReaderEnv) (s : ReaderState) : ReaderState × List RCall :=
  if s.currentBlockNumber = s.headBlockNumber ∨ s.headBlockNumber = 0 then
    ({ s with headBlockNumber := env.getHeadBlockNumber 0, tmpBlocks := [], index := 0 },
     [RCall.getHead])
  else (s, [])

/-- The tail-resolution step of `nextBlock`: a negative cursor with empty history
wraps to the end of the chain. -/
def tailResolvePhase (s : ReaderState) : ReaderState :=
  if s.currentBlockNumber < 0 ∧ s.blockHistory = [] then
    let c := s.headBlockNumber + s.currentBlockNumber
    { s with currentBlockNumber := c, startAtBlock := c + 1 }
  else s

/-- The prefetch step inside `nextBlock`'s advance branch.  Faithful to the
source's `for (let i = (this.currentBlockNumber = 0); i < this.headBlockNumber; i++)`:
it zeroes `currentBlockNumber` and fetches blocks `0 .. headBlockNumber - 1`. -/
def prefetchPhase (env : ReaderEnv) (s : ReaderState) : ReaderState × List RCall :=
  if s.tmpBlocks = [] then
    let n := s.headBlockNumber.toNat
    ({ s with currentBlockNumber := 0
              tmpBlocks := (List.range n).map (fun i => env.getBlock (Int.ofNat i)) },
     (List.range n).map (fun i => RCall.getBlock (Int.ofNat i)))
  else (s, [])

/-- The advance branch of `nextBlock` (entered when `currentBlockNumber <
headBlockNumber`).  Returns the updated state, the trace, and on success the pair
`(isRollback, isNewBlock)`. -/
def advancePhase (env : ReaderEnv) (s : ReaderState) :
    ReaderState × List RCall × Except RErr (Bool × Bool) :=
  let pr := prefetchPhase env s
  let s1 := pr.1
  match s1.tmpBlocks.get? s1.index with
  | none => ({ s1 with index := s1.index + 1 }, pr.2, .error .undefinedTmpBlock)
  | some u =>
    let s2 := { s1 with index := s1.index + 1 }
    let expected :=
      match s2.currentBlockData with
      | some b => b.blockInfo.blockHash
      | none => "INVALID"
    let actual := u.blockInfo.previousBlockHash
    if expected = actual ∨ s2.blockHistory = [] then
      let hist :=
        match s2.currentBlockData with
        | some b => s2.blockHistory ++ [b]
        | none => s2.blockHistory
      let hist2 := hist.drop (hist.length - s2.maxHistoryLength)
      ({ s2 with blockHistory := hist2
                 currentBlockData := some u
                 currentBlockNumber := u.blockInfo.blockNumber },
       pr.2, .ok (false, true))
    else
      let r := resolveFork env s2
      match r.2.2 with
      | .error e => (r.1, pr.2 ++ r.2.1, .error e)
      | .ok _ =>
        ({ r.1 with headBlockNumber := env.getHeadBlockNumber 1 },
         pr.2 ++ r.2.1 ++ [RCall.getHead], .ok (true, true))

/-- The final step of `nextBlock`: set `isFirstBlock` and return the current
block, erroring if it is still null. -/
def finishPhase (s : ReaderState) (trace : List RCall) (isRollback isNewBlock : Bool) :
    ReaderState × List RCall × Except RErr (Block × Bool × Bool) :=
  let s2 := { s with isFirstBlock := s.currentBlockNumber = s.startAtBlock }
  match s2.currentBlockData with
  | none => (s2, trace, .error .nullCurrentBlockData)
  | some b => (s2, trace, .ok (b, isRollback, isNewBlock))

/-- `nextBlock` of `AbstractActionReader`. -/
def nextBlock (env : ReaderEnv) (s : ReaderState) :
    ReaderState × List RCall × Except RErr (Block × Bool × Bool) :=
  let hr := headRefreshPhase env s
  let s2 := tailResolvePhase hr.1
  if s2.currentBlockNumber < s2.headBlockNumber then
    match advancePhase env s2 with
    | (s3, t2, .error e) => (s3, hr.2 ++ t2, .error e)
    | (s3, t2, .ok (rb, nb)) => finishPhase s3 (hr.2 ++ t2) rb nb
  else
    finishPhase s2 hr.2 false false

/-- The scan loop of `seekToBlock`: starting from `-1`, walk the reversed
history counting entries whose number differs from the target, stopping at the
first match. -/
def toDeleteAux (target : Int) : List Block → Int → Int
  | [], acc => acc
  | b :: rest, acc =>
    if b.blockInfo.blockNumber = target then acc
    else toDeleteAux target rest (acc + 1)

/-- `seekToBlock` of `AbstractActionReader`. -/
def seekToBlock (env : ReaderEnv) (s : ReaderState) (blockNumber : Int) :
    ReaderState × List RCall × Except RErr Unit :=
  let s1 := { s with currentBlockData := (none : Option Block), headBlockNumber := (0 : Int) }
  if blockNumber < s1.startAtBlock then
    (s1, [], .error .seekBeforeStart)
  else if blockNumber = 1 then
    ({ s1 with blockHistory := [], currentBlockNumber := 0 }, [], .ok ())
  else
    let toDelete := toDeleteAux blockNumber s1.blockHistory.reverse (-1)
    let s2 :=
      if 0 ≤ toDelete then
        let hist := s1.blockHistory.take toDelete.toNat
        { s1 with blockHistory := hist.dropLast, currentBlockData := hist.getLast? }
      else s1
    let s3 := { s2 with currentBlockNumber := blockNumber - 1 }
    match s3.currentBlockData with
    | none =>
      ({ s3 with currentBlockData := some (env.getBlock (blockNumber - 1)) },
       [RCall.getBlock (blockNumber - 1)], .ok ())
    | some _ => (s3, [], .ok ())

/-! ## Handler (src/AbstractActionHandler.ts) -/

/-- Mirrors `IndexState { blockNumber, blockHash, handlerVersionName }`. -/
structure IndexState where
  blockNumber : Int
  blockHash : String
  handlerVersionName : String
deriving DecidableEq, Repr

/-- The opaque `context` object shared across updaters and effects of a block. -/
abbrev Ctx := Unit

/-- Mirrors `Updater { actionType, apply }`.  The opaque persistence `state` is
modelled as a `Nat`; `apply` returns the new state together with the version
name it requests (the empty string standing for the falsy "no switch"). -/
structure Updater where
  actionType : String
  apply : Nat → String → BlockInfo → Ctx → Nat × String

/-- Mirrors `Effect { actionType, run }`; the side-effecting `run` is observable
only through the call trace. -/
structure Effect where
  actionType : String

/-- Mirrors `HandlerVersion { versionName, updaters, effects }`. -/
structure HandlerVersion where
  versionName : String
  updaters : List Updater
  effects : List Effect

/-- Calls the handler makes to its abstract methods and to updaters/effects. -/
inductive HCall where
  | rollbackTo (blockNumber : Int)
  | loadIndexState
  | handleWithState
  | updaterApply (updaterIndex : Nat)
  | updateIndexState (handlerVersionName : String)
  | effectRun (actionType : String) (payload : String)
deriving DecidableEq, Repr

/-- Errors thrown by handler methods. -/
inductive HErr where
  | chainMismatch
  | versionNotFound
  | noHandlerVersions
  | duplicateVersion
deriving DecidableEq, Repr

/-- The mutable fields of `AbstractActionHandler`. -/
structure HandlerState where
  lastProcessedBlockNumber : Int
  lastProcessedBlockHash : String
  handlerVersionName : String
  handlerVersionMap : List HandlerVersion

/-- The abstract persistence binder: what `loadIndexState` returns, and the
`state` object `handleWithState` passes to its closure. -/
structure HandlerEnv where
  loadIndexState : IndexState
  stateObj : Nat

/-- Key lookup in the `handlerVersionMap` dictionary. -/
def lookupVersion (m : List HandlerVersion) (name : String) : Option HandlerVersion :=
  m.find? (fun v => v.versionName == name)

/-- The insertion loop of `initHandlerVersions`, with its duplicate-name check. -/
def insertVersions (m : List HandlerVersion) :
    List HandlerVersion → Except HErr (List HandlerVersion)
  | [] => .ok m
  | v :: rest =>
    if (lookupVersion m v.versionName).isSome then .error .duplicateVersion
    else insertVersions (m ++ [v]) rest

/-- The constructor of `AbstractActionHandler` (`initHandlerVersions`): default
version name `v1`, falling back to the first registered version when `v1` is
absent. -/
def initHandlerVersions (handlerVersions : List HandlerVersion) :
    Except HErr HandlerState :=
  if handlerVersions.length = 0 then .error .noHandlerVersions
  else
    match insertVersions [] handlerVersions with
    | .error e => .error e
    | .ok m =>
      let name :=
        if (lookupVersion m "v1").isSome then "v1"
        else
          match handlerVersions with
          | [] => "v1"
          | v0 :: _ => v0.versionName
      .ok { lastProcessedBlockNumber := 0
            lastProcessedBlockHash := ""
            handlerVersionName := name
            handlerVersionMap := m }

/-- The inner updater loop of `applyUpdaters` for a single action.  Returns the
new opaque state, the (possibly switched) handler version name, the call trace,
and whether the loop hit `break` (a successful version switch). -/
def runUpdaterLoop (vmap : List HandlerVersion) (a : Action) (bi : BlockInfo)
    (us : List Updater) (idx : Nat) (st : Nat) (vname : String) :
    Nat × String × List HCall × Bool :=
  match us with
  | [] => (st, vname, [], false)
  | u :: rest =>
    if a.type = u.actionType then
      let r := u.apply st a.payload bi ()
      if r.2 ≠ "" ∧ (lookupVersion vmap r.2).isNone then
        let k := runUpdaterLoop vmap a bi rest (idx + 1) r.1 vname
        (k.1, k.2.1, HCall.updaterApply idx :: k.2.2.1, k.2.2.2)
      else if r.2 ≠ "" then
        (r.1, r.2, [HCall.updaterApply idx, HCall.updateIndexState r.2], true)
      else
        let k := runUpdaterLoop vmap a bi rest (idx + 1) r.1 vname
        (k.1, k.2.1, HCall.updaterApply idx :: k.2.2.1, k.2.2.2)
    else
      runUpdaterLoop vmap a bi rest (idx + 1) st vname

/-- The outer action loop of `applyUpdaters`.  Returns the versioned actions,
the final opaque state, the final version name, the call trace, and the error,
if any (a missing version key is a JS `TypeError`). -/
def applyUpdatersGo (vmap : List HandlerVersion) (b : Block) :
    List Action → Nat → String →
    List (Action × String) × Nat × String × List HCall × Option HErr
  | [], st, vname => ([], st, vname, [], none)
  | a :: rest, st, vname =>
    match lookupVersion vmap vname with
    | none => ([], st, vname, [], some .versionNotFound)
    | some hv =>
      let k := runUpdaterLoop vmap a b.blockInfo hv.updaters 0 st vname
      let w := applyUpdatersGo vmap b rest k.1 k.2.1
      ((a, k.2.1) :: w.1, w.2.1, w.2.2.1, k.2.2.1 ++ w.2.2.2.1, w.2.2.2.2)

/-- `applyUpdaters` of `AbstractActionHandler`. -/
def applyUpdaters (s : HandlerState) (st : Nat) (b : Block) :
    List (Action × String) × Nat × String × List HCall × Option HErr :=
  applyUpdatersGo s.handlerVersionMap b b.actions st s.handlerVersionName

/-- The per-action effect loop of `runEffects`. -/
def runEffectsAction (effects : List Effect) (a : Action) : List HCall :=
  effects.filterMap fun e =>
    if a.type = e.actionType then some (HCall.effectRun a.type a.payload) else none

/-- `runEffects` of `AbstractActionHandler`. -/
def runEffects (vmap : List HandlerVersion) :
    List (Action × String) → List HCall × Option HErr
  | [] => ([], none)
  | (a, vn) :: rest =>
    match lookupVersion vmap vn with
    | none => ([], some .versionNotFound)
    | some hv =>
      let r := runEffects vmap rest
      (runEffectsAction hv.effects a ++ r.1, r.2)

/-- `handleActions` of `AbstractActionHandler`: apply updaters, run effects
(unless replaying), persist the cursor, update the in-memory cursor. -/
def handleActions (s : HandlerState) (st : Nat) (b : Block) (isReplay : Bool) :
    HandlerState × List HCall × Option HErr :=
  let k := applyUpdaters s st b
  let s2 := { s with handlerVersionName := k.2.2.1 }
  match k.2.2.2.2 with
  | some e => (s2, k.2.2.2.1, some e)
  | none =>
    let r := if isReplay = false then runEffects s2.handlerVersionMap k.1 else ([], none)
    match r.2 with
    | some e => (s2, k.2.2.2.1 ++ r.1, some e)
    | none =>
      ({ s2 with lastProcessedBlockNumber := b.blockInfo.blockNumber
                 lastProcessedBlockHash := b.blockInfo.blockHash },
       k.2.2.2.1 ++ r.1 ++ [HCall.updateIndexState s2.handlerVersionName], none)

/-- `refreshIndexState` of `AbstractActionHandler`: copy the loaded `IndexState`
into the in-memory fields, with no validation of the version name. -/
def refreshIndexState (env : HandlerEnv) (s : HandlerState) : HandlerState :=
  { s with lastProcessedBlockNumber := env.loadIndexState.blockNumber
           lastProcessedBlockHash := env.loadIndexState.blockHash
           handlerVersionName := env.loadIndexState.handlerVersionName }

/-- The rollback / cold-start step at the top of `handleBlock`. -/
def handleBlockPrelude (env : HandlerEnv) (s : HandlerState) (b : Block)
    (isRollback isFirstBlock isReplay : Bool) : HandlerState × List HCall :=
  if isRollback = true ∨ (isReplay = true ∧ isFirstBlock = true) then
    (refreshIndexState env s,
     [HCall.rollbackTo (b.blockInfo.blockNumber - 1), HCall.loadIndexState])
  else if s.lastProcessedBlockNumber = 0 ∧ s.lastProcessedBlockHash = "" then
    (refreshIndexState env s, [HCall.loadIndexState])
  else (s, [])

/-- `handleBlock` of `AbstractActionHandler`. -/
def handleBlock (env : HandlerEnv) (s : HandlerState) (b : Block)
    (isRollback isFirstBlock isReplay : Bool) :
    HandlerState × List HCall × Except HErr (Bool × Int) :=
  let pre := handleBlockPrelude env s b isRollback isFirstBlock isReplay
  let s1 := pre.1
  let nextBlockNeeded := s1.lastProcessedBlockNumber + 1
  if b.blockInfo.blockNumber = s1.lastProcessedBlockNumber ∧
     b.blockInfo.blockHash = s1.lastProcessedBlockHash then
    (s1, pre.2, .ok (false, 0))
  else if isFirstBlock = true ∧ s1.lastProcessedBlockHash ≠ "" then
    (s1, pre.2, .ok (true, nextBlockNeeded))
  else if isFirstBlock = false ∧ b.blockInfo.blockNumber ≠ nextBlockNeeded then
    (s1, pre.2, .ok (true, nextBlockNeeded))
  else if isFirstBlock = false ∧ b.blockInfo.previousBlockHash ≠ s1.lastProcessedBlockHash then
    (s1, pre.2, .error .chainMismatch)
  else
    let ha := handleActions s1 env.stateObj b isReplay
    match ha.2.2 with
    | some e => (ha.1, pre.2 ++ [HCall.handleWithState] ++ ha.2.1, .error e)
    | none => (ha.1, pre.2 ++ [HCall.handleWithState] ++ ha.2.1, .ok (false, 0))

/-! ## Concrete fixtures -/

/-- A deterministic hash for block number `n`. -/
def hashOf (n : Int) : String := "h" ++ toString n

/-- Block `n` of a well-linked reference chain. -/
def chainBlock (n : Int) : Block :=
  { blockInfo :=
      { blockNumber := n, blockHash := hashOf n, previousBlockHash := hashOf (n - 1) }
    actions := [] }

/-- A chain source whose head is fixed at `head` and whose blocks are the
reference chain. -/
def chainEnv (head : Int) : ReaderEnv :=
  { getHeadBlockNumber := fun _ => head, getBlock := chainBlock }

/-! ## Simple projection lemmas -/

theorem headRefreshPhase_currentBlockNumber (env : ReaderEnv) (s : ReaderState) :
    (headRefreshPhase env s).1.currentBlockNumber = s.currentBlockNumber := by
  unfold headRefreshPhase; split <;> rfl

theorem headRefreshPhase_startAtBlock (env : ReaderEnv) (s : ReaderState) :
    (headRefreshPhase env s).1.startAtBlock = s.startAtBlock := by
  unfold headRefreshPhase; split <;> rfl

theorem headRefreshPhase_blockHistory (env : ReaderEnv) (s : ReaderState) :
    (headRefreshPhase env s).1.blockHistory = s.blockHistory := by
  unfold headRefreshPhase; split <;> rfl

/-! ## Branch equations for seekToBlock -/

theorem seekToBlock_eq_of_lt (env : ReaderEnv) (s : ReaderState) (target : Int)
    (h : target < s.startAtBlock) :
    seekToBlock env s target =
      ({ s with currentBlockData := none, headBlockNumber := 0 }, [],
       .error .seekBeforeStart) := by
  unfold seekToBlock
  dsimp only []
  split
  · rfl
  · next hn => exact absurd h hn

theorem seekToBlock_eq_of_one (env : ReaderEnv) (s : ReaderState) (target : Int)
    (h1 : ¬ target < s.startAtBlock) (h2 : target = 1) :
    seekToBlock env s target =
      ({ s with currentBlockData := none, headBlockNumber := 0,
                blockHistory := [], currentBlockNumber := 0 }, [], .ok ()) := by
  unfold seekToBlock
  dsimp only []
  rw [if_neg h1, if_pos h2]

/-! ## C10 -/

/-- C10: `seekToBlock` is not atomic on its seek-before-start error: for every
target below `startAtBlock`, it has already cleared `currentBlockData` and
zeroed `headBlockNumber` by the time the error is thrown, and it makes no
chain-source calls. -/
theorem seekToBlock_clears_state_before_validation (env : ReaderEnv) (s : ReaderState)
    (target : Int) (h : target < s.startAtBlock) :
    (seekToBlock env s target).1.currentBlockData = none ∧
    (seekToBlock env s target).1.headBlockNumber = 0 ∧
    (seekToBlock env s target).2.1 = [] ∧
    (seekToBlock env s target).2.2 = .error .seekBeforeStart := by
  rw [seekToBlock_eq_of_lt env s target h]
  exact ⟨rfl, rfl, rfl, rfl⟩

/-- Witness for C10 at a concrete input. -/
theorem seekToBlock_clears_state_before_validation_witness :
    ((0 : Int) < (mkReader 1 false 600).startAtBlock) ∧
    (seekToBlock (chainEnv 5) (mkReader 1 false 600) 0).1.currentBlockData = none ∧
    (seekToBlock (chainEnv 5) (mkReader 1 false 600) 0).2.2 = .error .seekBeforeStart :=
  ⟨by decide,
   (seekToBlock_clears_state_before_validation (chainEnv 5) (mkReader 1 false 600) 0
      (by decide)).1,
   (seekToBlock_clears_state_before_validation (chainEnv 5) (mkReader 1 false 600) 0
      (by decide)).2.2.2⟩

/-! ## C1 -/

/-- A reader mid-stream: cursor at block 2, cached head 5, empty prefetch buffer. -/
def readerC1 : ReaderState :=
  { startAtBlock := 3, onlyIrreversible := false, maxHistoryLength := 600
    headBlockNumber := 5, currentBlockNumber := 2, isFirstBlock := false
    currentBlockData := none, blockHistory := [], tmpBlocks := [], index := 0 }

/-- C1: evaluating `nextBlock` at a state with an empty prefetch buffer and
`currentBlockNumber = 2 < headBlockNumber = 5`.  The assignment typo in the
prefetch loop (`for (let i = (this.currentBlockNumber = 0); i < head; i++)`)
makes the reader fetch blocks `0 .. 4` instead of `3 .. 5` and zero the cursor,
so the call returns block 0 with `currentBlockNumber = 0`. -/
theorem nextBlock_prefetch_fetches_from_zero :
    (nextBlock (chainEnv 5) readerC1).2.1 =
      [RCall.getBlock 0, RCall.getBlock 1, RCall.getBlock 2,
       RCall.getBlock 3, RCall.getBlock 4] ∧
    (nextBlock (chainEnv 5) readerC1).2.1 ≠
      [RCall.getBlock 3, RCall.getBlock 4, RCall.getBlock 5] ∧
    (nextBlock (chainEnv 5) readerC1).1.currentBlockNumber = 0 ∧
    (nextBlock (chainEnv 5) readerC1).2.2 = .ok (chainBlock 0, false, true) :=
  ⟨rfl, by decide, rfl, rfl⟩

/-! ## C3 -/

/-- A freshly constructed tailing reader: `startAtBlock = -5`. -/
def readerTail : ReaderState := mkReader (-5) false 600

/-- Counterexample for C3: with head 100 and original `startAtBlock = -5`, the
tail-resolution step of `nextBlock` sets `currentBlockNumber` to `94`, not to
`head + startAtBlock = 95` as the claim states (the rewritten `startAtBlock`
is 95, one more than the cursor). -/
theorem tailResolve_offByOne_counterexample :
    (tailResolvePhase (headRefreshPhase (chainEnv 100) readerTail).1).currentBlockNumber = 94 ∧
    (tailResolvePhase (headRefreshPhase (chainEnv 100) readerTail).1).currentBlockNumber ≠
      (headRefreshPhase (chainEnv 100) readerTail).1.headBlockNumber + readerTail.startAtBlock ∧
    (tailResolvePhase (headRefreshPhase (chainEnv 100) readerTail).1).startAtBlock = 95 :=
  ⟨rfl, by decide, rfl⟩

/-- C3 (amended): in `nextBlock`, if after the head refresh the cursor is
negative and the history empty, the tail-resolution step sets
`currentBlockNumber = head + currentBlockNumber` (which equals
`head + startAtBlock - 1` for a freshly constructed reader) and rewrites
`startAtBlock` to `currentBlockNumber + 1 = head + startAtBlock`. -/
theorem tailResolve_wraps_to_head (env : ReaderEnv) (s : ReaderState)
    (h1 : (headRefreshPhase env s).1.currentBlockNumber < 0)
    (h2 : (headRefreshPhase env s).1.blockHistory = []) :
    (tailResolvePhase (headRefreshPhase env s).1).currentBlockNumber =
      (headRefreshPhase env s).1.headBlockNumber + s.currentBlockNumber ∧
    (tailResolvePhase (headRefreshPhase env s).1).startAtBlock =
      (headRefreshPhase env s).1.headBlockNumber + s.currentBlockNumber + 1 ∧
    (s.currentBlockNumber = s.startAtBlock - 1 →
      (tailResolvePhase (headRefreshPhase env s).1).currentBlockNumber =
        (headRefreshPhase env s).1.headBlockNumber + s.startAtBlock - 1 ∧
      (tailResolvePhase (headRefreshPhase env s).1).startAtBlock =
        (headRefreshPhase env s).1.headBlockNumber + s.startAtBlock) := by
  have hc := headRefreshPhase_currentBlockNumber env s
  unfold tailResolvePhase
  rw [if_pos ⟨h1, h2⟩]
  refine ⟨by simp [hc], by simp [hc], fun hfresh => ⟨by simp [hc, hfresh]; omega, by simp [hc, hfresh]; omega⟩⟩

/-! ## C2 -/

/-- A reader holding blocks 1–5 in history with block 5 current. -/
def readerC2 : ReaderState :=
  { startAtBlock := 1, onlyIrreversible := false, maxHistoryLength := 600
    headBlockNumber := 5, currentBlockNumber := 5, isFirstBlock := false
    currentBlockData := some (chainBlock 5)
    blockHistory :=
      [chainBlock 1, chainBlock 2, chainBlock 3, chainBlock 4, chainBlock 5]
    tmpBlocks := [], index := 0 }

/-- Counterexample for C2: seeking to block 3 with history `[1,2,3,4,5]` finds
the target at index 2, yet the code leaves `currentBlockData = block 1` and an
empty history — not `block 4` and `[1,2,3]` as the claim predicts. -/
theorem seekToBlock_history_counterexample :
    (seekToBlock (chainEnv 5) readerC2 3).1.currentBlockData = some (chainBlock 1) ∧
    (seekToBlock (chainEnv 5) readerC2 3).1.blockHistory = [] ∧
    (seekToBlock (chainEnv 5) readerC2 3).1.currentBlockData ≠ some (chainBlock 4) ∧
    (seekToBlock (chainEnv 5) readerC2 3).1.blockHistory ≠
      [chainBlock 1, chainBlock 2, chainBlock 3] :=
  ⟨rfl, rfl, by decide, by decide⟩

/-- Modelled from the amended C2 claim: let `m` count the history entries,
scanned from newest to oldest, strictly before the first entry whose number
equals the target (all entries when no match).  If `m = 0` the history is left
alone and nothing is popped; otherwise the history is truncated to its first
`m - 1` entries and the new tail (if any) is popped into `currentBlockData`.
Then `currentBlockNumber := target - 1`, and `getBlock (target - 1)` is fetched
exactly when nothing was popped. -/
def seekToBlockAmendedModel (env : ReaderEnv) (s : ReaderState) (blockNumber : Int) :
    ReaderState × List RCall × Except RErr Unit :=
  let m := (s.blockHistory.reverse.takeWhile
      (fun b => b.blockInfo.blockNumber != blockNumber)).length
  let kept := s.blockHistory.take (m - 1)
  let cur : Option Block := if m = 0 then none else kept.getLast?
  let hist : List Block := if m = 0 then s.blockHistory else kept.dropLast
  let fetched : Option Block × List RCall :=
    match cur with
    | none => (some (env.getBlock (blockNumber - 1)), [RCall.getBlock (blockNumber - 1)])
    | some b => (some b, [])
  ({ s with currentBlockData := fetched.1
            headBlockNumber := 0
            blockHistory := hist
            currentBlockNumber := blockNumber - 1 },
   fetched.2, .ok ())

theorem toDeleteAux_eq_takeWhile (target : Int) (l : List Block) (acc : Int) :
    toDeleteAux target l acc =
      acc + ((l.takeWhile (fun b => b.blockInfo.blockNumber != target)).length : Int) := by
  induction l generalizing acc with
  | nil => simp [toDeleteAux]
  | cons b rest ih =>
    rw [toDeleteAux, List.takeWhile_cons]
    by_cases h : b.blockInfo.blockNumber = target
    · simp [h]
    · have hb : (b.blockInfo.blockNumber != target) = true := by
        simpa [bne_iff_ne] using h
      simp only [if_neg h, hb, if_true, List.length_cons, ih]
      push_cast
      ring

theorem seekToBlock_model_eq (env : ReaderEnv) (s : ReaderState)
    (blockNumber : Int) (h1 : ¬ blockNumber < s.startAtBlock) (h2 : blockNumber ≠ 1) :
    seekToBlock env s blockNumber = seekToBlockAmendedModel env s blockNumber := by
  unfold seekToBlock seekToBlockAmendedModel
  dsimp only []
  rw [if_neg h1, if_neg h2, toDeleteAux_eq_takeWhile]
  by_cases hm :
      (s.blockHistory.reverse.takeWhile
        (fun b => b.blockInfo.blockNumber != blockNumber)).length = 0
  · rw [hm]
    norm_num
  · have hpos :
        0 < (s.blockHistory.reverse.takeWhile
          (fun b => b.blockInfo.blockNumber != blockNumber)).length := Nat.pos_of_ne_zero hm
    rw [if_pos (by omega), if_neg hm, if_neg hm]
    have htn :
        (-1 + ((s.blockHistory.reverse.takeWhile
          (fun b => b.blockInfo.blockNumber != blockNumber)).length : Int)).toNat =
        (s.blockHistory.reverse.takeWhile
          (fun b => b.blockInfo.blockNumber != blockNumber)).length - 1 := by omega
    rw [htn]
    dsimp only []
    cases hk :
        (List.take
          ((List.takeWhile (fun b => b.blockInfo.blockNumber != blockNumber)
            s.blockHistory.reverse).length - 1) s.blockHistory).getLast? with
    | none => simp only [hk]
    | some b => simp only [hk]

/-- C2 (amended): for every `seekToBlock env s target` with
`target ≥ startAtBlock` and `target ≠ 1`, the result is exactly the state
described by `seekToBlockAmendedModel`: counting `m` non-matching entries from
the newest end, the history is truncated to its first `m - 1` entries (left
alone when `m = 0`) with the new tail popped into `currentBlockData`;
`currentBlockNumber` becomes `target - 1`, and `getBlock (target - 1)` is
fetched exactly when nothing was popped. -/
theorem seekToBlock_scan_semantics (env : ReaderEnv) (s : ReaderState)
    (blockNumber : Int) (h1 : ¬ blockNumber < s.startAtBlock) (h2 : blockNumber ≠ 1) :
    seekToBlock env s blockNumber = seekToBlockAmendedModel env s blockNumber :=
  seekToBlock_model_eq env s blockNumber h1 h2

/-- Witness for C2 (amended) at a concrete input. -/
theorem seekToBlock_scan_semantics_witness :
    (¬ (3 : Int) < readerC2.startAtBlock) ∧ ((3 : Int) ≠ 1) ∧
    seekToBlock (chainEnv 5) readerC2 3 = seekToBlockAmendedModel (chainEnv 5) readerC2 3 :=
  ⟨by decide, by decide,
   seekToBlock_scan_semantics (chainEnv 5) readerC2 3 (by decide) (by decide)⟩

/-- Witness for C3 (amended) at a concrete input. -/
theorem tailResolve_wraps_to_head_witness :
    ((headRefreshPhase (chainEnv 100) readerTail).1.currentBlockNumber < 0) ∧
    (tailResolvePhase (headRefreshPhase (chainEnv 100) readerTail).1).startAtBlock =
      (headRefreshPhase (chainEnv 100) readerTail).1.headBlockNumber + readerTail.startAtBlock :=
  ⟨by decide,
   ((tailResolve_wraps_to_head (chainEnv 100) readerTail (by decide) (by decide)).2.2
      (by decide)).2⟩

/-! ## C9: the history bound -/

theorem headRefreshPhase_maxHistoryLength (env : ReaderEnv) (s : ReaderState) :
    (headRefreshPhase env s).1.maxHistoryLength = s.maxHistoryLength := by
  unfold headRefreshPhase; split <;> rfl

theorem tailResolvePhase_blockHistory (s : ReaderState) :
    (tailResolvePhase s).blockHistory = s.blockHistory := by
  unfold tailResolvePhase; split <;> rfl

theorem tailResolvePhase_maxHistoryLength (s : ReaderState) :
    (tailResolvePhase s).maxHistoryLength = s.maxHistoryLength := by
  unfold tailResolvePhase; split <;> rfl

theorem prefetchPhase_blockHistory (env : ReaderEnv) (s : ReaderState) :
    (prefetchPhase env s).1.blockHistory = s.blockHistory := by
  unfold prefetchPhase; split <;> rfl

theorem prefetchPhase_maxHistoryLength (env : ReaderEnv) (s : ReaderState) :
    (prefetchPhase env s).1.maxHistoryLength = s.maxHistoryLength := by
  unfold prefetchPhase; split <;> rfl

theorem prefetchPhase_currentBlockData (env : ReaderEnv) (s : ReaderState) :
    (prefetchPhase env s).1.currentBlockData = s.currentBlockData := by
  unfold prefetchPhase; split <;> rfl

theorem finishPhase_blockHistory (s : ReaderState) (t : List RCall) (rb nb : Bool) :
    (finishPhase s t rb nb).1.blockHistory = s.blockHistory := by
  unfold finishPhase
  dsimp only []
  cases s.currentBlockData <;> rfl

theorem resolveForkAux_length (env : ReaderEnv) (cur : Block) (l : List Block) :
    (resolveForkAux env cur l).2.1.length ≤ l.length := by
  induction l generalizing cur with
  | nil => simp [resolveForkAux]
  | cons prev rest ih =>
    rw [resolveForkAux]
    dsimp only []
    split
    · simp
    · exact le_trans (ih prev) (Nat.le_succ _)

theorem resolveFork_history_le (env : ReaderEnv) (s : ReaderState) :
    (resolveFork env s).1.blockHistory.length ≤ s.blockHistory.length := by
  unfold resolveFork
  dsimp only []
  cases hc : s.currentBlockData with
  | none => simp
  | some cur =>
    have h := resolveForkAux_length env cur s.blockHistory.reverse
    rw [List.length_reverse] at h
    cases hr : (resolveForkAux env cur s.blockHistory.reverse).2.1 with
    | nil =>
      simp only [hr]
      simp
    | cons p rest =>
      simp only [hr]
      rw [hr] at h
      simpa using h

theorem resolveFork_maxHistoryLength (env : ReaderEnv) (s : ReaderState) :
    (resolveFork env s).1.maxHistoryLength = s.maxHistoryLength := by
  unfold resolveFork
  dsimp only []
  cases s.currentBlockData with
  | none => rfl
  | some cur =>
    cases hr : (resolveForkAux env cur s.blockHistory.reverse).2.1 with
    | nil => simp only [hr]
    | cons p rest => simp only [hr]

theorem seekToBlock_history_le (env : ReaderEnv) (s : ReaderState) (n : Int) :
    (seekToBlock env s n).1.blockHistory.length ≤ s.blockHistory.length := by
  by_cases h1 : n < s.startAtBlock
  · rw [seekToBlock_eq_of_lt env s n h1]
  · by_cases h2 : n = 1
    · rw [seekToBlock_eq_of_one env s n h1 h2]
      simp
    · rw [seekToBlock_model_eq env s n h1 h2]
      unfold seekToBlockAmendedModel
      dsimp only []
      split
      · exact le_refl _
      · rw [List.length_dropLast, List.length_take]
        omega

theorem advancePhase_history_le (env : ReaderEnv) (s : ReaderState)
    (h : s.blockHistory.length ≤ s.maxHistoryLength) :
    (advancePhase env s).1.blockHistory.length ≤ s.maxHistoryLength := by
  unfold advancePhase
  dsimp only []
  have hb := prefetchPhase_blockHistory env s
  have hm := prefetchPhase_maxHistoryLength env s
  cases hg : (prefetchPhase env s).1.tmpBlocks.get? (prefetchPhase env s).1.index with
  | none =>
    simp only [hg]
    simpa [hb] using h
  | some u =>
    simp only [hg]
    split
    · cases hcur : (prefetchPhase env s).1.currentBlockData <;>
        · simp only [hcur]
          simp only [List.length_drop, hm]
          omega
    · have hr : (resolveFork env
          { (prefetchPhase env s).1 with
            index := (prefetchPhase env s).1.index + 1 }).1.blockHistory.length ≤
          s.blockHistory.length := by
        have hr0 := resolveFork_history_le env
          { (prefetchPhase env s).1 with index := (prefetchPhase env s).1.index + 1 }
        simpa [hb] using hr0
      have hstep := le_trans hr h
      split
      · exact hstep
      · dsimp only []
        exact hstep

theorem nextBlock_history_le (env : ReaderEnv) (s : ReaderState)
    (h : s.blockHistory.length ≤ s.maxHistoryLength) :
    (nextBlock env s).1.blockHistory.length ≤ s.maxHistoryLength := by
  unfold nextBlock
  dsimp only []
  have e1 : (tailResolvePhase (headRefreshPhase env s).1).blockHistory = s.blockHistory := by
    rw [tailResolvePhase_blockHistory, headRefreshPhase_blockHistory]
  have e2 : (tailResolvePhase (headRefreshPhase env s).1).maxHistoryLength =
      s.maxHistoryLength := by
    rw [tailResolvePhase_maxHistoryLength, headRefreshPhase_maxHistoryLength]
  split
  · rcases hadv : advancePhase env (tailResolvePhase (headRefreshPhase env s).1) with
      ⟨s3, t2, res⟩
    have hle := advancePhase_history_le env (tailResolvePhase (headRefreshPhase env s).1)
      (by rw [e1, e2]; exact h)
    rw [hadv] at hle
    rw [e2] at hle
    cases res with
    | error e => exact hle
    | ok v =>
      cases v with
      | mk rb nb =>
        dsimp only []
        rw [finishPhase_blockHistory]
        exact hle
  · rw [finishPhase_blockHistory, e1]
    exact h

/-- C9: the length of `blockHistory` never exceeds `maxHistoryLength`: assuming
the bound held before the call, it holds after every `nextBlock`, every
`seekToBlock`, and every `resolveFork`. -/
theorem blockHistory_bounded (env : ReaderEnv) (s : ReaderState)
    (h : s.blockHistory.length ≤ s.maxHistoryLength) :
    (nextBlock env s).1.blockHistory.length ≤ s.maxHistoryLength ∧
    (∀ n, (seekToBlock env s n).1.blockHistory.length ≤ s.maxHistoryLength) ∧
    (resolveFork env s).1.blockHistory.length ≤ s.maxHistoryLength :=
  ⟨nextBlock_history_le env s h,
   fun n => le_trans (seekToBlock_history_le env s n) h,
   le_trans (resolveFork_history_le env s) h⟩

/-! ## Handler fixtures -/

/-- A handler version with no updaters and no effects. -/
def hvPlain : HandlerVersion := { versionName := "v1", updaters := [], effects := [] }

/-- A handler that has processed up to block 5 of the reference chain. -/
def handlerAt5 : HandlerState :=
  { lastProcessedBlockNumber := 5, lastProcessedBlockHash := "h5"
    handlerVersionName := "v1", handlerVersionMap := [hvPlain] }

/-- A persistence binder whose stored index state points at block 3. -/
def henvAt3 : HandlerEnv :=
  { loadIndexState := { blockNumber := 3, blockHash := "h3", handlerVersionName := "v1" }
    stateObj := 0 }

/-- Block 5 of the reference chain, with no actions. -/
def blockAt5 : Block :=
  { blockInfo := { blockNumber := 5, blockHash := "h5", previousBlockHash := "h4" }
    actions := [] }

/-- Block 9 of the reference chain, with no actions. -/
def blockAt9 : Block :=
  { blockInfo := { blockNumber := 9, blockHash := "h9", previousBlockHash := "h8" }
    actions := [] }

/-! ## C4 -/

/-- The handler state produced by the constructor for the single version `v1`. -/
def handlerInit : HandlerState :=
  { lastProcessedBlockNumber := 0, lastProcessedBlockHash := ""
    handlerVersionName := "v1", handlerVersionMap := [hvPlain] }

/-- A persistence binder whose stored index state names the unregistered
version `v2`. -/
def henvRogue : HandlerEnv :=
  { loadIndexState := { blockNumber := 7, blockHash := "h7", handlerVersionName := "v2" }
    stateObj := 0 }

/-- Counterexample for C4: starting from the constructor-produced state for the
single version `v1`, `refreshIndexState` copies the loaded `handlerVersionName`
`v2` with no validation, leaving the active version name bound to a name absent
from the version map. -/
theorem handlerVersion_invariant_counterexample :
    initHandlerVersions [hvPlain] = .ok handlerInit ∧
    (refreshIndexState henvRogue handlerInit).handlerVersionName = "v2" ∧
    (lookupVersion (refreshIndexState henvRogue handlerInit).handlerVersionMap
      "v2").isNone = true :=
  ⟨rfl, rfl, rfl⟩

/-- The C4 invariant: the active version name is a key of the version map. -/
def versionInvariant (s : HandlerState) : Prop :=
  (lookupVersion s.handlerVersionMap s.handlerVersionName).isSome = true

theorem lookupVersion_append (m l : List HandlerVersion) (x : String) :
    lookupVersion (m ++ l) x =
      match lookupVersion m x with
      | some v => some v
      | none => lookupVersion l x := by
  unfold lookupVersion
  induction m with
  | nil => simp
  | cons v rest ih =>
    by_cases h : (v.versionName == x) = true
    · simp [List.find?_cons, h]
    · simp only [List.cons_append, List.find?_cons, h]
      simpa using ih

theorem insertVersions_mono (l : List HandlerVersion) (m m2 : List HandlerVersion)
    (x : String) (h : insertVersions m l = .ok m2)
    (hx : (lookupVersion m x).isSome = true) :
    (lookupVersion m2 x).isSome = true := by
  induction l generalizing m with
  | nil =>
    rw [insertVersions] at h
    cases h
    exact hx
  | cons v rest ih =>
    rw [insertVersions] at h
    split at h
    · cases h
    · refine ih (m ++ [v]) h ?_
      rw [lookupVersion_append]
      cases hl : lookupVersion m x with
      | none => rw [hl] at hx; simp at hx
      | some w => simp

theorem insertVersions_mem (l : List HandlerVersion) (m m2 : List HandlerVersion)
    (h : insertVersions m l = .ok m2) :
    ∀ v ∈ l, (lookupVersion m2 v.versionName).isSome = true := by
  induction l generalizing m with
  | nil => intro v hv; cases hv
  | cons v rest ih =>
    rw [insertVersions] at h
    split at h
    · cases h
    · intro w hw
      cases hw with
      | head =>
        refine insertVersions_mono rest (m ++ [v]) m2 v.versionName h ?_
        rw [lookupVersion_append]
        cases hl : lookupVersion m v.versionName with
        | none =>
          unfold lookupVersion
          simp [List.find?_cons]
        | some z => simp
      | tail _ htail => exact ih (m ++ [v]) h w htail

theorem initHandlerVersions_inv (vs : List HandlerVersion) (s : HandlerState)
    (h : initHandlerVersions vs = .ok s) : versionInvariant s := by
  unfold initHandlerVersions at h
  split at h
  · cases h
  · next hne =>
    cases hins : insertVersions [] vs with
    | error e => rw [hins] at h; cases h
    | ok m =>
      rw [hins] at h
      dsimp only [] at h
      by_cases hv1 : (lookupVersion m "v1").isSome = true
      · rw [if_pos hv1] at h
        cases h
        exact hv1
      · rw [if_neg hv1] at h
        cases vs with
        | nil => simp at hne
        | cons v0 rest =>
          cases h
          exact insertVersions_mem (v0 :: rest) [] m hins v0 (List.mem_cons_self v0 rest)

theorem runUpdaterLoop_vname_inv (vmap : List HandlerVersion) (a : Action)
    (bi : BlockInfo) (us : List Updater) (idx st : Nat) (vname : String)
    (h : (lookupVersion vmap vname).isSome = true) :
    (lookupVersion vmap (runUpdaterLoop vmap a bi us idx st vname).2.1).isSome = true := by
  induction us generalizing idx st vname with
  | nil => simpa [runUpdaterLoop] using h
  | cons u rest ih =>
    rw [runUpdaterLoop]
    dsimp only []
    split
    · split
      · exact ih _ _ _ h
      · next hc2 =>
        split
        · next hc3 =>
          cases hl : lookupVersion vmap (u.apply st a.payload bi ()).2 with
          | none => exact absurd ⟨hc3, by rw [hl]; rfl⟩ hc2
          | some w => simp
        · next hc3 => exact ih _ _ _ h
    · exact ih _ _ _ h

theorem applyUpdatersGo_vname_inv (vmap : List HandlerVersion) (b : Block)
    (as : List Action) (st : Nat) (vname : String)
    (h : (lookupVersion vmap vname).isSome = true) :
    (lookupVersion vmap (applyUpdatersGo vmap b as st vname).2.2.1).isSome = true := by
  induction as generalizing st vname with
  | nil => simpa [applyUpdatersGo] using h
  | cons a rest ih =>
    rw [applyUpdatersGo]
    cases hl : lookupVersion vmap vname with
    | none => rw [hl] at h; simp at h
    | some hv =>
      dsimp only []
      exact ih _ _ (runUpdaterLoop_vname_inv vmap a b.blockInfo hv.updaters 0 st vname h)

theorem handleActions_map_eq (s : HandlerState) (st : Nat) (b : Block) (rep : Bool) :
    (handleActions s st b rep).1.handlerVersionMap = s.handlerVersionMap := by
  unfold handleActions
  dsimp only []
  split
  · rfl
  · split
    · rfl
    · rfl

theorem handleActions_vname_eq (s : HandlerState) (st : Nat) (b : Block) (rep : Bool) :
    (handleActions s st b rep).1.handlerVersionName = (applyUpdaters s st b).2.2.1 := by
  unfold handleActions
  dsimp only []
  split
  · rfl
  · split
    · rfl
    · rfl

theorem handleActions_inv (s : HandlerState) (st : Nat) (b : Block) (rep : Bool)
    (h : versionInvariant s) : versionInvariant (handleActions s st b rep).1 := by
  unfold versionInvariant
  rw [handleActions_map_eq, handleActions_vname_eq]
  exact applyUpdatersGo_vname_inv s.handlerVersionMap b b.actions st s.handlerVersionName h

theorem refreshIndexState_inv (env : HandlerEnv) (s : HandlerState)
    (henv : (lookupVersion s.handlerVersionMap
      env.loadIndexState.handlerVersionName).isSome = true) :
    versionInvariant (refreshIndexState env s) :=
  henv

theorem handleBlockPrelude_inv (env : HandlerEnv) (s : HandlerState) (b : Block)
    (r f p : Bool) (h : versionInvariant s)
    (henv : (lookupVersion s.handlerVersionMap
      env.loadIndexState.handlerVersionName).isSome = true) :
    versionInvariant (handleBlockPrelude env s b r f p).1 := by
  unfold handleBlockPrelude
  split
  · exact refreshIndexState_inv env s henv
  · split
    · exact refreshIndexState_inv env s henv
    · exact h

theorem handleBlockPrelude_map_eq (env : HandlerEnv) (s : HandlerState) (b : Block)
    (r f p : Bool) :
    (handleBlockPrelude env s b r f p).1.handlerVersionMap = s.handlerVersionMap := by
  unfold handleBlockPrelude
  split
  · rfl
  · split
    · rfl
    · rfl

theorem handleBlock_inv (env : HandlerEnv) (s : HandlerState) (b : Block)
    (r f p : Bool) (h : versionInvariant s)
    (henv : (lookupVersion s.handlerVersionMap
      env.loadIndexState.handlerVersionName).isSome = true) :
    versionInvariant (handleBlock env s b r f p).1 := by
  have hpre := handleBlockPrelude_inv env s b r f p h henv
  unfold handleBlock
  dsimp only []
  split
  · exact hpre
  · split
    · exact hpre
    · split
      · exact hpre
      · split
        · exact hpre
        · split
          · next heq =>
            exact handleActions_inv (handleBlockPrelude env s b r f p).1
              env.stateObj b p hpre
          · next heq =>
            exact handleActions_inv (handleBlockPrelude env s b r f p).1
              env.stateObj b p hpre

/-- C4 (amended): the invariant "the active version name is a key of the
version map" holds after the constructor and is preserved by `applyUpdaters`
(and hence `handleActions`); `refreshIndexState` — and therefore `handleBlock`,
which may call it — preserves it only under the additional assumption that the
loaded `IndexState` names a registered version, since `refreshIndexState`
performs no validation of its own. -/
theorem handlerVersionName_registered :
    (∀ vs s, initHandlerVersions vs = .ok s → versionInvariant s) ∧
    (∀ (s : HandlerState) (st : Nat) (b : Block), versionInvariant s →
      (lookupVersion s.handlerVersionMap (applyUpdaters s st b).2.2.1).isSome = true) ∧
    (∀ (s : HandlerState) (st : Nat) (b : Block) (rep : Bool), versionInvariant s →
      versionInvariant (handleActions s st b rep).1) ∧
    (∀ env s, (lookupVersion s.handlerVersionMap
        env.loadIndexState.handlerVersionName).isSome = true →
      versionInvariant (refreshIndexState env s)) ∧
    (∀ env s b r f p, versionInvariant s →
      (lookupVersion s.handlerVersionMap
        env.loadIndexState.handlerVersionName).isSome = true →
      versionInvariant (handleBlock env s b r f p).1) :=
  ⟨initHandlerVersions_inv,
   fun s st b h => applyUpdatersGo_vname_inv s.handlerVersionMap b b.actions st
     s.handlerVersionName h,
   fun s st b rep h => handleActions_inv s st b rep h,
   refreshIndexState_inv,
   fun env s b r f p h henv => handleBlock_inv env s b r f p h henv⟩

/-- Witness for C4 (amended) at concrete inputs. -/
theorem handlerVersionName_registered_witness :
    versionInvariant handlerInit ∧ versionInvariant (refreshIndexState henvAt3 handlerInit) :=
  ⟨handlerVersionName_registered.1 [hvPlain] handlerInit rfl,
   handlerVersionName_registered.2.2.2.1 henvAt3 handlerInit (by decide)⟩

/-! ## C5 -/

/-- Counterexample for C5: with `isRollback = true`, a block that matches the
in-memory last-processed cursor `(5, h5)` still triggers `rollbackTo` and
`loadIndexState`; the refresh moves the cursor to `(3, h3)`, and the call
returns `(true, 4)` instead of `(false, 0)`, with handler state changed. -/
theorem handleBlock_idempotence_counterexample :
    blockAt5.blockInfo.blockNumber = handlerAt5.lastProcessedBlockNumber ∧
    blockAt5.blockInfo.blockHash = handlerAt5.lastProcessedBlockHash ∧
    (handleBlock henvAt3 handlerAt5 blockAt5 true false false).2.2 = .ok (true, 4) ∧
    ((true, (4 : Int)) ≠ ((false, 0) : Bool × Int)) ∧
    (handleBlock henvAt3 handlerAt5 blockAt5 true false false).2.1 =
      [HCall.rollbackTo 4, HCall.loadIndexState] ∧
    (handleBlock henvAt3 handlerAt5 blockAt5 true false false).1.lastProcessedBlockNumber = 3 :=
  ⟨rfl, rfl, rfl, by decide, rfl, rfl⟩

/-- C5 (amended): when no rollback or cold-start refresh runs (`isRollback =
false`, not both replay and first block, and the in-memory cursor is not the
`(0, "")` default), `handleBlock` on a block matching the last-processed cursor
returns `(false, 0)`, makes no abstract calls at all (in particular never
reaches `handleWithState`), and leaves the handler state unchanged. -/
theorem handleBlock_skip_processed_block (env : HandlerEnv) (s : HandlerState) (b : Block)
    (f p : Bool)
    (h1 : b.blockInfo.blockNumber = s.lastProcessedBlockNumber)
    (h2 : b.blockInfo.blockHash = s.lastProcessedBlockHash)
    (h3 : ¬ (p = true ∧ f = true))
    (h4 : ¬ (s.lastProcessedBlockNumber = 0 ∧ s.lastProcessedBlockHash = "")) :
    handleBlock env s b false f p = (s, [], .ok (false, 0)) := by
  have hc1 : ¬ ((false : Bool) = true ∨ (p = true ∧ f = true)) := by
    rintro (hc | hc)
    · simp at hc
    · exact h3 hc
  have hpre : handleBlockPrelude env s b false f p = (s, []) := by
    unfold handleBlockPrelude
    rw [if_neg hc1, if_neg h4]
  unfold handleBlock
  rw [hpre]
  dsimp only []
  rw [if_pos ⟨h1, h2⟩]

/-- Witness for C5 (amended) at a concrete input. -/
theorem handleBlock_skip_processed_block_witness :
    blockAt5.blockInfo.blockNumber = handlerAt5.lastProcessedBlockNumber ∧
    ¬ (handlerAt5.lastProcessedBlockNumber = 0 ∧ handlerAt5.lastProcessedBlockHash = "") ∧
    handleBlock henvAt3 handlerAt5 blockAt5 false false false =
      (handlerAt5, [], .ok (false, 0)) :=
  ⟨rfl, by decide,
   handleBlock_skip_processed_block henvAt3 handlerAt5 blockAt5 false false
     rfl rfl (by decide) (by decide)⟩

/-! ## C6 -/

/-- C6: on a non-first block that does not match the (post-prelude) cursor, a
block-number gap makes `handleBlock` return `(true, lastProcessed + 1)` without
entering `handleWithState`; a matching number with a mismatching
`previousBlockHash` raises the chain-mismatch error, again without entering
`handleWithState` (the prelude trace never contains `handleWithState`). -/
theorem handleBlock_sequence_check (env : HandlerEnv) (s : HandlerState) (b : Block)
    (r p : Bool)
    (hnm : ¬ (b.blockInfo.blockNumber =
        (handleBlockPrelude env s b r false p).1.lastProcessedBlockNumber ∧
      b.blockInfo.blockHash =
        (handleBlockPrelude env s b r false p).1.lastProcessedBlockHash)) :
    (b.blockInfo.blockNumber ≠
        (handleBlockPrelude env s b r false p).1.lastProcessedBlockNumber + 1 →
      handleBlock env s b r false p =
        ((handleBlockPrelude env s b r false p).1, (handleBlockPrelude env s b r false p).2,
         .ok (true, (handleBlockPrelude env s b r false p).1.lastProcessedBlockNumber + 1))) ∧
    (b.blockInfo.blockNumber =
        (handleBlockPrelude env s b r false p).1.lastProcessedBlockNumber + 1 →
      b.blockInfo.previousBlockHash ≠
        (handleBlockPrelude env s b r false p).1.lastProcessedBlockHash →
      handleBlock env s b r false p =
        ((handleBlockPrelude env s b r false p).1, (handleBlockPrelude env s b r false p).2,
         .error .chainMismatch)) ∧
    HCall.handleWithState ∉ (handleBlockPrelude env s b r false p).2 := by
  refine ⟨?_, ?_, ?_⟩
  · intro hseq
    unfold handleBlock
    dsimp only []
    rw [if_neg hnm, if_neg (by simp), if_pos ⟨rfl, hseq⟩]
  · intro hseq hhash
    unfold handleBlock
    dsimp only []
    rw [if_neg hnm, if_neg (by simp), if_neg (by simp [hseq]), if_pos ⟨rfl, hhash⟩]
  · unfold handleBlockPrelude
    split
    · simp
    · split
      · simp
      · simp

/-- Witness for C6 at a concrete input. -/
theorem handleBlock_sequence_check_witness :
    (¬ (blockAt9.blockInfo.blockNumber =
        (handleBlockPrelude henvAt3 handlerAt5 blockAt9 false false false).1.lastProcessedBlockNumber ∧
      blockAt9.blockInfo.blockHash =
        (handleBlockPrelude henvAt3 handlerAt5 blockAt9 false false false).1.lastProcessedBlockHash)) ∧
    handleBlock henvAt3 handlerAt5 blockAt9 false false false =
      (handlerAt5, [], .ok (true, 6)) :=
  ⟨by decide,
   (handleBlock_sequence_check henvAt3 handlerAt5 blockAt9 false false (by decide)).1
     (by decide)⟩

/-! ## C8 -/

/-- Whether a handler call is an `Effect.run` invocation. -/
def isEffectRun : HCall → Bool
  | HCall.effectRun _ _ => true
  | _ => false

theorem runUpdaterLoop_no_effectRun (vmap : List HandlerVersion) (a : Action)
    (bi : BlockInfo) (us : List Updater) (idx st : Nat) (vname : String) :
    ∀ c ∈ (runUpdaterLoop vmap a bi us idx st vname).2.2.1, isEffectRun c = false := by
  induction us generalizing idx st vname with
  | nil => intro c hc; simp [runUpdaterLoop] at hc
  | cons u rest ih =>
    rw [runUpdaterLoop]
    dsimp only []
    split
    · split
      · intro c hc
        cases hc with
        | head => rfl
        | tail _ ht => exact ih _ _ _ c ht
      · split
        · intro c hc
          cases hc with
          | head => rfl
          | tail _ ht =>
            cases ht with
            | head => rfl
            | tail _ ht2 => cases ht2
        · intro c hc
          cases hc with
          | head => rfl
          | tail _ ht => exact ih _ _ _ c ht
    · exact ih _ _ _

theorem applyUpdatersGo_no_effectRun (vmap : List HandlerVersion) (b : Block)
    (as : List Action) (st : Nat) (vname : String) :
    ∀ c ∈ (applyUpdatersGo vmap b as st vname).2.2.2.1, isEffectRun c = false := by
  induction as generalizing st vname with
  | nil => intro c hc; simp [applyUpdatersGo] at hc
  | cons a rest ih =>
    rw [applyUpdatersGo]
    cases hl : lookupVersion vmap vname with
    | none => intro c hc; simp at hc
    | some hv =>
      dsimp only []
      intro c hc
      rcases List.mem_append.mp hc with hc1 | hc2
      · exact runUpdaterLoop_no_effectRun vmap a b.blockInfo hv.updaters 0 st vname c hc1
      · exact ih _ _ c hc2

theorem applyUpdatersGo_cons (vmap : List HandlerVersion) (b : Block) (a : Action)
    (rest : List Action) (st : Nat) (vname : String) (hv : HandlerVersion)
    (hl : lookupVersion vmap vname = some hv) :
    applyUpdatersGo vmap b (a :: rest) st vname =
      (let k := runUpdaterLoop vmap a b.blockInfo hv.updaters 0 st vname
       let w := applyUpdatersGo vmap b rest k.1 k.2.1
       ((a, k.2.1) :: w.1, w.2.1, w.2.2.1, k.2.2.1 ++ w.2.2.2.1, w.2.2.2.2)) := by
  rw [applyUpdatersGo, hl]

theorem applyUpdatersGo_cons_none (vmap : List HandlerVersion) (b : Block) (a : Action)
    (rest : List Action) (st : Nat) (vname : String)
    (hl : lookupVersion vmap vname = none) :
    applyUpdatersGo vmap b (a :: rest) st vname =
      ([], st, vname, [], some .versionNotFound) := by
  rw [applyUpdatersGo, hl]

theorem applyUpdatersGo_length (vmap : List HandlerVersion) (b : Block)
    (as : List Action) (st : Nat) (vname : String)
    (h : (applyUpdatersGo vmap b as st vname).2.2.2.2 = none) :
    (applyUpdatersGo vmap b as st vname).1.length = as.length := by
  induction as generalizing st vname with
  | nil => simp [applyUpdatersGo]
  | cons a rest ih =>
    cases hl : lookupVersion vmap vname with
    | none =>
      rw [applyUpdatersGo_cons_none vmap b a rest st vname hl] at h
      cases h
    | some hv =>
      rw [applyUpdatersGo_cons vmap b a rest st vname hv hl] at h ⊢
      dsimp only [] at h ⊢
      rw [List.length_cons, ih _ _ h]
      rfl

theorem handleActions_eq_err (s : HandlerState) (st : Nat) (b : Block) (rep : Bool)
    (e : HErr) (hk : (applyUpdaters s st b).2.2.2.2 = some e) :
    handleActions s st b rep =
      ({ s with handlerVersionName := (applyUpdaters s st b).2.2.1 },
       (applyUpdaters s st b).2.2.2.1, some e) := by
  unfold handleActions
  dsimp only []
  rw [hk]

theorem handleActions_eq_effErr (s : HandlerState) (st : Nat) (b : Block) (rep : Bool)
    (e : HErr) (hk : (applyUpdaters s st b).2.2.2.2 = none)
    (hr : ((if rep = false then
        runEffects ({ s with handlerVersionName :=
          (applyUpdaters s st b).2.2.1 } : HandlerState).handlerVersionMap
          (applyUpdaters s st b).1
      else (([] : List HCall), (none : Option HErr)))).2 = some e) :
    handleActions s st b rep =
      ({ s with handlerVersionName := (applyUpdaters s st b).2.2.1 },
       (applyUpdaters s st b).2.2.2.1 ++
         (if rep = false then
            runEffects ({ s with handlerVersionName :=
              (applyUpdaters s st b).2.2.1 } : HandlerState).handlerVersionMap
              (applyUpdaters s st b).1
          else (([] : List HCall), (none : Option HErr))).1,
       some e) := by
  unfold handleActions
  dsimp only []
  rw [hk, hr]

theorem handleActions_eq_ok (s : HandlerState) (st : Nat) (b : Block) (rep : Bool)
    (hk : (applyUpdaters s st b).2.2.2.2 = none)
    (hr : ((if rep = false then
        runEffects ({ s with handlerVersionName :=
          (applyUpdaters s st b).2.2.1 } : HandlerState).handlerVersionMap
          (applyUpdaters s st b).1
      else (([] : List HCall), (none : Option HErr)))).2 = none) :
    handleActions s st b rep =
      ({ s with handlerVersionName := (applyUpdaters s st b).2.2.1,
                lastProcessedBlockNumber := b.blockInfo.blockNumber,
                lastProcessedBlockHash := b.blockInfo.blockHash },
       (applyUpdaters s st b).2.2.2.1 ++
         (if rep = false then
            runEffects ({ s with handlerVersionName :=
              (applyUpdaters s st b).2.2.1 } : HandlerState).handlerVersionMap
              (applyUpdaters s st b).1
          else (([] : List HCall), (none : Option HErr))).1 ++
         [HCall.updateIndexState (applyUpdaters s st b).2.2.1],
       none) := by
  unfold handleActions
  dsimp only []
  rw [hk, hr]

/-- C8: in `handleActions`, a replay run never produces an `Effect.run` call
while the updaters still run and the cursor is still persisted (the trace is
exactly the `applyUpdaters` trace followed by the final `updateIndexState`);
when no error occurs, `applyUpdaters` pairs every action of the block; and in a
live run the trace is the `applyUpdaters` trace, then the `runEffects` trace,
then the final `updateIndexState`. -/
theorem handleActions_replay_and_order (s : HandlerState) (st : Nat) (b : Block) :
    (∀ c ∈ (handleActions s st b true).2.1, isEffectRun c = false) ∧
    ((handleActions s st b true).2.2 = none →
      (handleActions s st b true).2.1 =
        (applyUpdaters s st b).2.2.2.1 ++
          [HCall.updateIndexState (applyUpdaters s st b).2.2.1]) ∧
    ((applyUpdaters s st b).2.2.2.2 = none →
      (applyUpdaters s st b).1.length = b.actions.length) ∧
    ((handleActions s st b false).2.2 = none →
      (handleActions s st b false).2.1 =
        (applyUpdaters s st b).2.2.2.1 ++
          (runEffects s.handlerVersionMap (applyUpdaters s st b).1).1 ++
          [HCall.updateIndexState (applyUpdaters s st b).2.2.1]) := by
  refine ⟨?_, ?_, ?_, ?_⟩
  · intro c hc
    cases hk : (applyUpdaters s st b).2.2.2.2 with
    | some e =>
      rw [handleActions_eq_err s st b true e hk] at hc
      exact applyUpdatersGo_no_effectRun s.handlerVersionMap b b.actions st
        s.handlerVersionName c hc
    | none =>
      rw [handleActions_eq_ok s st b true hk rfl] at hc
      simp only [List.mem_append, List.mem_singleton] at hc
      rcases hc with (hc1 | hc2) | hc3
      · exact applyUpdatersGo_no_effectRun s.handlerVersionMap b b.actions st
          s.handlerVersionName c hc1
      · simp at hc2
      · rw [hc3]; rfl
  · intro herr
    cases hk : (applyUpdaters s st b).2.2.2.2 with
    | some e =>
      rw [handleActions_eq_err s st b true e hk] at herr
      simp at herr
    | none =>
      rw [handleActions_eq_ok s st b true hk rfl]
      simp
  · exact applyUpdatersGo_length s.handlerVersionMap b b.actions st s.handlerVersionName
  · intro herr
    cases hk : (applyUpdaters s st b).2.2.2.2 with
    | some e =>
      rw [handleActions_eq_err s st b false e hk] at herr
      simp at herr
    | none =>
      cases hr : (runEffects s.handlerVersionMap (applyUpdaters s st b).1).2 with
      | some e =>
        rw [handleActions_eq_effErr s st b false e hk (by simp [hr])] at herr
        simp at herr
      | none =>
        rw [handleActions_eq_ok s st b false hk (by simp [hr])]
        simp

/-! ## C7 -/

theorem runUpdaterLoop_cons_skip (vmap : List HandlerVersion) (a : Action)
    (bi : BlockInfo) (u : Updater) (rest : List Updater) (idx st : Nat) (vname : String)
    (h : ¬ a.type = u.actionType) :
    runUpdaterLoop vmap a bi (u :: rest) idx st vname =
      runUpdaterLoop vmap a bi rest (idx + 1) st vname := by
  rw [runUpdaterLoop]
  dsimp only []
  rw [if_neg h]

theorem runUpdaterLoop_cons_warn (vmap : List HandlerVersion) (a : Action)
    (bi : BlockInfo) (u : Updater) (rest : List Updater) (idx st : Nat) (vname : String)
    (h : a.type = u.actionType)
    (hw : (u.apply st a.payload bi ()).2 ≠ "" ∧
      (lookupVersion vmap (u.apply st a.payload bi ()).2).isNone = true) :
    runUpdaterLoop vmap a bi (u :: rest) idx st vname =
      (let k := runUpdaterLoop vmap a bi rest (idx + 1) (u.apply st a.payload bi ()).1 vname
       (k.1, k.2.1, HCall.updaterApply idx :: k.2.2.1, k.2.2.2)) := by
  rw [runUpdaterLoop]
  dsimp only []
  rw [if_pos h, if_pos hw]

theorem runUpdaterLoop_cons_switch (vmap : List HandlerVersion) (a : Action)
    (bi : BlockInfo) (u : Updater) (rest : List Updater) (idx st : Nat) (vname : String)
    (h : a.type = u.actionType)
    (hnw : ¬ ((u.apply st a.payload bi ()).2 ≠ "" ∧
      (lookupVersion vmap (u.apply st a.payload bi ()).2).isNone = true))
    (hv : (u.apply st a.payload bi ()).2 ≠ "") :
    runUpdaterLoop vmap a bi (u :: rest) idx st vname =
      ((u.apply st a.payload bi ()).1, (u.apply st a.payload bi ()).2,
       [HCall.updaterApply idx,
        HCall.updateIndexState (u.apply st a.payload bi ()).2], true) := by
  rw [runUpdaterLoop]
  dsimp only []
  rw [if_pos h, if_neg hnw, if_pos hv]

theorem runUpdaterLoop_cons_cont (vmap : List HandlerVersion) (a : Action)
    (bi : BlockInfo) (u : Updater) (rest : List Updater) (idx st : Nat) (vname : String)
    (h : a.type = u.actionType)
    (hv0 : (u.apply st a.payload bi ()).2 = "") :
    runUpdaterLoop vmap a bi (u :: rest) idx st vname =
      (let k := runUpdaterLoop vmap a bi rest (idx + 1) (u.apply st a.payload bi ()).1 vname
       (k.1, k.2.1, HCall.updaterApply idx :: k.2.2.1, k.2.2.2)) := by
  rw [runUpdaterLoop]
  dsimp only []
  rw [if_pos h, if_neg (fun hc => hc.1 hv0), if_neg (fun hc => hc hv0)]

theorem runUpdaterLoop_switch (vmap : List HandlerVersion) (a : Action) (bi : BlockInfo)
    (us1 us2 : List Updater) (u : Updater) (idx st : Nat) (vname : String)
    (hpre : (runUpdaterLoop vmap a bi us1 idx st vname).2.2.2 = false)
    (hmatch : a.type = u.actionType)
    (hv : (u.apply (runUpdaterLoop vmap a bi us1 idx st vname).1 a.payload bi ()).2 ≠ "")
    (hknown : (lookupVersion vmap
      (u.apply (runUpdaterLoop vmap a bi us1 idx st vname).1 a.payload bi ()).2).isSome
        = true) :
    runUpdaterLoop vmap a bi (us1 ++ u :: us2) idx st vname =
      ((u.apply (runUpdaterLoop vmap a bi us1 idx st vname).1 a.payload bi ()).1,
       (u.apply (runUpdaterLoop vmap a bi us1 idx st vname).1 a.payload bi ()).2,
       (runUpdaterLoop vmap a bi us1 idx st vname).2.2.1 ++
         [HCall.updaterApply (idx + us1.length),
          HCall.updateIndexState
            (u.apply (runUpdaterLoop vmap a bi us1 idx st vname).1 a.payload bi ()).2],
       true) := by
  induction us1 generalizing idx st vname with
  | nil =>
    simp only [runUpdaterLoop] at hv hknown
    have hnone : (lookupVersion vmap (u.apply st a.payload bi ()).2).isNone = false := by
      cases hl : lookupVersion vmap (u.apply st a.payload bi ()).2 with
      | none => rw [hl] at hknown; simp at hknown
      | some w => rfl
    rw [List.nil_append,
      runUpdaterLoop_cons_switch vmap a bi u us2 idx st vname hmatch
        (fun hc => by rw [hnone] at hc; exact Bool.false_ne_true hc.2) hv]
    simp [runUpdaterLoop]
  | cons w rest ih =>
    by_cases hw : a.type = w.actionType
    · by_cases hc1 : ((w.apply st a.payload bi ()).2 ≠ "" ∧
        (lookupVersion vmap (w.apply st a.payload bi ()).2).isNone = true)
      · rw [runUpdaterLoop_cons_warn vmap a bi w rest idx st vname hw hc1]
          at hpre hv hknown
        dsimp only [] at hpre hv hknown
        rw [List.cons_append,
          runUpdaterLoop_cons_warn vmap a bi w (rest ++ u :: us2) idx st vname hw hc1,
          runUpdaterLoop_cons_warn vmap a bi w rest idx st vname hw hc1]
        dsimp only []
        rw [ih (idx + 1) (w.apply st a.payload bi ()).1 vname hpre hv hknown]
        simp [Nat.add_assoc, Nat.add_comm, Nat.add_left_comm]
      · by_cases hv2 : (w.apply st a.payload bi ()).2 ≠ ""
        · rw [runUpdaterLoop_cons_switch vmap a bi w rest idx st vname hw hc1 hv2] at hpre
          simp at hpre
        · have hv0 : (w.apply st a.payload bi ()).2 = "" := not_not.mp hv2
          rw [runUpdaterLoop_cons_cont vmap a bi w rest idx st vname hw hv0]
            at hpre hv hknown
          dsimp only [] at hpre hv hknown
          rw [List.cons_append,
            runUpdaterLoop_cons_cont vmap a bi w (rest ++ u :: us2) idx st vname hw hv0,
            runUpdaterLoop_cons_cont vmap a bi w rest idx st vname hw hv0]
          dsimp only []
          rw [ih (idx + 1) (w.apply st a.payload bi ()).1 vname hpre hv hknown]
          simp [Nat.add_assoc, Nat.add_comm, Nat.add_left_comm]
    · rw [runUpdaterLoop_cons_skip vmap a bi w rest idx st vname hw] at hpre hv hknown
      rw [List.cons_append,
        runUpdaterLoop_cons_skip vmap a bi w (rest ++ u :: us2) idx st vname hw,
        runUpdaterLoop_cons_skip vmap a bi w rest idx st vname hw]
      rw [ih (idx + 1) st vname hpre hv hknown]
      simp [Nat.add_assoc, Nat.add_comm, Nat.add_left_comm]

/-- The handler version name (and opaque state) in effect after sequentially
running the updater loop over a prefix of the block's actions, mirroring how
`applyUpdaters` threads them. -/
def stateAfterActions (vmap : List HandlerVersion) (b : Block) :
    List Action → Nat → String → Nat × String
  | [], st, vname => (st, vname)
  | a :: rest, st, vname =>
    match lookupVersion vmap vname with
    | none => (st, vname)
    | some hv =>
      let k := runUpdaterLoop vmap a b.blockInfo hv.updaters 0 st vname
      stateAfterActions vmap b rest k.1 k.2.1

theorem stateAfterActions_cons (vmap : List HandlerVersion) (b : Block) (a : Action)
    (rest : List Action) (st : Nat) (vname : String) (hv : HandlerVersion)
    (hl : lookupVersion vmap vname = some hv) :
    stateAfterActions vmap b (a :: rest) st vname =
      stateAfterActions vmap b rest
        (runUpdaterLoop vmap a b.blockInfo hv.updaters 0 st vname).1
        (runUpdaterLoop vmap a b.blockInfo hv.updaters 0 st vname).2.1 := by
  rw [stateAfterActions, hl]

theorem applyUpdatersGo_pairs (vmap : List HandlerVersion) (b : Block)
    (as : List Action) (st : Nat) (vname : String) :
    ∀ i p, (applyUpdatersGo vmap b as st vname).1.get? i = some p →
      as.get? i = some p.1 ∧
      p.2 = (stateAfterActions vmap b (as.take (i + 1)) st vname).2 := by
  induction as generalizing st vname with
  | nil =>
    intro i p hp
    simp [applyUpdatersGo] at hp
  | cons a rest ih =>
    intro i p hp
    cases hl : lookupVersion vmap vname with
    | none =>
      rw [applyUpdatersGo_cons_none vmap b a rest st vname hl] at hp
      simp at hp
    | some hv =>
      rw [applyUpdatersGo_cons vmap b a rest st vname hv hl] at hp
      dsimp only [] at hp
      cases i with
      | zero =>
        rw [List.get?_cons_zero] at hp
        cases hp
        refine ⟨rfl, ?_⟩
        rw [List.take_succ_cons, List.take_zero,
          stateAfterActions_cons vmap b a [] st vname hv hl]
        rfl
      | succ i =>
        rw [List.get?_cons_succ] at hp
        have hih := ih _ _ i p hp
        refine ⟨by rw [List.get?_cons_succ]; exact hih.1, ?_⟩
        rw [List.take_succ_cons,
          stateAfterActions_cons vmap b a (rest.take (i + 1)) st vname hv hl]
        exact hih.2

/-- C7 (part 1): in the updater loop of `applyUpdaters`, if no earlier updater
switched and an updater matching the action returns a nonempty version name
that is a key of the version map, the loop applies that updater, emits
`updateIndexState` with the NEW version name, switches the active version name
to it, and stops — the updaters after it are never consulted (the result does
not depend on them).  (part 2): each entry of the versioned-action list pairs
the i-th action with the version name in effect after that action's updaters
ran. -/
theorem applyUpdaters_switch_and_pairing :
    (∀ (vmap : List HandlerVersion) (a : Action) (bi : BlockInfo)
        (us1 us2 : List Updater) (u : Updater) (idx st : Nat) (vname : String),
      (runUpdaterLoop vmap a bi us1 idx st vname).2.2.2 = false →
      a.type = u.actionType →
      (u.apply (runUpdaterLoop vmap a bi us1 idx st vname).1 a.payload bi ()).2 ≠ "" →
      (lookupVersion vmap
        (u.apply (runUpdaterLoop vmap a bi us1 idx st vname).1 a.payload bi ()).2).isSome
          = true →
      runUpdaterLoop vmap a bi (us1 ++ u :: us2) idx st vname =
        ((u.apply (runUpdaterLoop vmap a bi us1 idx st vname).1 a.payload bi ()).1,
         (u.apply (runUpdaterLoop vmap a bi us1 idx st vname).1 a.payload bi ()).2,
         (runUpdaterLoop vmap a bi us1 idx st vname).2.2.1 ++
           [HCall.updaterApply (idx + us1.length),
            HCall.updateIndexState
              (u.apply (runUpdaterLoop vmap a bi us1 idx st vname).1 a.payload bi ()).2],
         true)) ∧
    (∀ (vmap : List HandlerVersion) (b : Block) (as : List Action) (st : Nat)
        (vname : String) (i : Nat) (p : Action × String),
      (applyUpdatersGo vmap b as st vname).1.get? i = some p →
      as.get? i = some p.1 ∧
      p.2 = (stateAfterActions vmap b (as.take (i + 1)) st vname).2) :=
  ⟨runUpdaterLoop_switch, applyUpdatersGo_pairs⟩

/-- An updater on action type `act` that requests no switch. -/
def updNoop : Updater := { actionType := "act", apply := fun st _p _bi _c => (st, "") }

/-- An updater on action type `act` that switches to version `v2`. -/
def updSwitch : Updater :=
  { actionType := "act", apply := fun st _p _bi _c => (st + 1, "v2") }

/-- An updater on action type `act` placed after the switching one. -/
def updAfter : Updater :=
  { actionType := "act", apply := fun st _p _bi _c => (st + 100, "") }

/-- A two-version map: `v1` with three updaters, `v2` with none. -/
def vmapTwo : List HandlerVersion :=
  [{ versionName := "v1", updaters := [updNoop, updSwitch, updAfter], effects := [] },
   { versionName := "v2", updaters := [], effects := [] }]

/-- An action of type `act`. -/
def actA : Action := { type := "act", payload := "p" }

/-- A block carrying the single action `actA`. -/
def blockAct : Block :=
  { blockInfo := { blockNumber := 2, blockHash := "h2", previousBlockHash := "h1" }
    actions := [actA] }

/-- Witness for C7 at concrete inputs. -/
theorem applyUpdaters_switch_and_pairing_witness :
    ((runUpdaterLoop vmapTwo actA blockAct.blockInfo [updNoop] 0 0 "v1").2.2.2 = false) ∧
    runUpdaterLoop vmapTwo actA blockAct.blockInfo
        ([updNoop] ++ updSwitch :: [updAfter]) 0 0 "v1" =
      (1, "v2", [HCall.updaterApply 0, HCall.updaterApply 1,
        HCall.updateIndexState "v2"], true) ∧
    [actA].get? 0 = some actA ∧
    "v2" = (stateAfterActions vmapTwo blockAct [actA] 0 "v1").2 :=
  ⟨rfl,
   by
    have h := applyUpdaters_switch_and_pairing.1 vmapTwo actA blockAct.blockInfo
      [updNoop] [updAfter] updSwitch 0 0 "v1" rfl rfl (by decide) rfl
    exact h,
   by
    have h := applyUpdaters_switch_and_pairing.2 vmapTwo blockAct [actA] 0 "v1" 0
      (actA, "v2") rfl
    exact h.1,
   by
    have h := applyUpdaters_switch_and_pairing.2 vmapTwo blockAct [actA] 0 "v1" 0
      (actA, "v2") rfl
    exact h.2⟩

/-- An updater that increments the opaque state and requests no switch. -/
def updIncrement : Updater :=
  { actionType := "inc", apply := fun st _p _bi _c => (st + 1, "") }

/-- An effect registered for the `inc` action type. -/
def effInc : Effect := { actionType := "inc" }

/-- A version with one updater and one effect. -/
def hvInc : HandlerVersion :=
  { versionName := "v1", updaters := [updIncrement], effects := [effInc] }

/-- A handler registered with `hvInc` only. -/
def handlerInc : HandlerState :=
  { lastProcessedBlockNumber := 0, lastProcessedBlockHash := ""
    handlerVersionName := "v1", handlerVersionMap := [hvInc] }

/-- Block 1 carrying a single `inc` action. -/
def blockInc : Block :=
  { blockInfo := { blockNumber := 1, blockHash := "h1", previousBlockHash := "h0" }
    actions := [{ type := "inc", payload := "a" }] }

/-- Witness for C8 at a concrete input. -/
theorem handleActions_replay_and_order_witness :
    ((handleActions handlerInc 0 blockInc true).2.2 = none) ∧
    (handleActions handlerInc 0 blockInc true).2.1 =
      (applyUpdaters handlerInc 0 blockInc).2.2.2.1 ++
        [HCall.updateIndexState (applyUpdaters handlerInc 0 blockInc).2.2.1] ∧
    (handleActions handlerInc 0 blockInc false).2.1 =
      (applyUpdaters handlerInc 0 blockInc).2.2.2.1 ++
        (runEffects handlerInc.handlerVersionMap (applyUpdaters handlerInc 0 blockInc).1).1 ++
        [HCall.updateIndexState (applyUpdaters handlerInc 0 blockInc).2.2.1] :=
  ⟨rfl,
   (handleActions_replay_and_order handlerInc 0 blockInc).2.1 rfl,
   (handleActions_replay_and_order handlerInc 0 blockInc).2.2.2 rfl⟩

/-- Witness for C9 at a concrete input. -/
theorem blockHistory_bounded_witness :
    readerC2.blockHistory.length ≤ readerC2.maxHistoryLength ∧
    (nextBlock (chainEnv 5) readerC2).1.blockHistory.length ≤ readerC2.maxHistoryLength ∧
    (seekToBlock (chainEnv 5) readerC2 3).1.blockHistory.length ≤ readerC2.maxHistoryLength :=
  ⟨by decide,
   (blockHistory_bounded (chainEnv 5) readerC2 (by decide)).1,
   (blockHistory_bounded (chainEnv 5) readerC2 (by decide)).2.1 3⟩

end Demux
